import Mathlib

/-!
Verification of the Game of Life engine (`src/app/components/engine/GameEngine.ts`).

The engine stores the board as a JavaScript `Map<string, Cell>` whose keys are
the strings produced by the template `${x},${y}`.  The key codec is embedded
and proved injective below (namespace `KeyCodec`), which justifies modelling
the grid as a finite map keyed directly by the integer pair `(x, y)`.
JavaScript `Map`s keep at most one entry per key and iterate in insertion
order; they are embedded as association lists with first-match lookup,
replace-in-place-or-append insertion, and entry removal.
-/

namespace GameOfLife

/-- Source `interface Cell { alive: boolean; age: number }` (ages are non-negative). -/
structure Cell where
  alive : Bool
  age : Nat
deriving DecidableEq, Repr

/-- An integer coordinate pair, the decoded form of a `"x,y"` grid key. -/
abbrev Coord := Int × Int

/-- The sparse board: the JS `Map<string, Cell>` keyed (via the injective
key codec) by the coordinate pair. -/
abbrev Grid := List (Coord × Cell)

/-- Source `Map.get(key)`: first-match lookup. -/
def mapGet (g : Grid) (k : Coord) : Option Cell :=
  match g with
  | [] => none
  | kc :: rest => if kc.1 = k then some kc.2 else mapGet rest k

/-- Source `Map.set(key, value)`: replace the entry in place if the key is present,
otherwise append a new entry (JS insertion-order semantics). -/
def mapSet (g : Grid) (k : Coord) (c : Cell) : Grid :=
  match g with
  | [] => [(k, c)]
  | kc :: rest => if kc.1 = k then (k, c) :: rest else kc :: mapSet rest k c

/-- Source `Map.delete(key)`: remove the entry with that key. -/
def mapDelete (g : Grid) (k : Coord) : Grid :=
  match g with
  | [] => []
  | kc :: rest => if kc.1 = k then mapDelete rest k else kc :: mapDelete rest k

/-- Source `interface GameState { grid; generation }` returned by `getState`. -/
structure GameState where
  grid : Grid
  generation : Nat
deriving DecidableEq, Repr

/-- The engine state.  `grid`, `nextGrid`, `generation`, `isRunning`,
`intervalId` and `speed` are the class fields.  `scheduled` and `nextTimerId`
embed the JS runtime's interval registry that `setInterval`/`clearInterval`
manipulate: `scheduled` holds each active interval's handle and period, and
`nextTimerId` is the fresh-handle counter.  (The optional `start` callback is
captured in the interval closure, never stored in engine state, and does not
affect any state transition, so it is not modelled.) -/
structure GameEngine where
  grid : Grid
  nextGrid : Grid
  generation : Nat
  isRunning : Bool
  intervalId : Option Nat
  speed : Int
  scheduled : List (Nat × Int)
  nextTimerId : Nat
deriving DecidableEq, Repr

/-- Source `reset()` / field initializers: empty grids, generation 0, stopped. -/
def GameEngine.init : GameEngine :=
  { grid := []
    nextGrid := []
    generation := 0
    isRunning := false
    intervalId := none
    speed := 100
    scheduled := []
    nextTimerId := 0 }

/-- Source `getState()`: `{ grid: new Map(this.grid), generation: this.generation }`.
In this value-level model the copy is the same list value; the reference-level
consequences of `new Map` being a shallow copy are analysed in namespace
`RefModel` below. -/
def GameEngine.getState (e : GameEngine) : GameState :=
  { grid := e.grid, generation := e.generation }

/-- Source `setCell(x, y, alive)`. -/
def GameEngine.setCell (e : GameEngine) (x y : Int) (alive : Bool) : GameEngine :=
  if alive then { e with grid := mapSet e.grid (x, y) ⟨true, 0⟩ }
  else { e with grid := mapDelete e.grid (x, y) }

/-- Source `toggleCell(x, y)`: `if (cell)` is a presence test on the map entry. -/
def GameEngine.toggleCell (e : GameEngine) (x y : Int) : GameEngine :=
  match mapGet e.grid (x, y) with
  | some _ => { e with grid := mapDelete e.grid (x, y) }
  | none => { e with grid := mapSet e.grid (x, y) ⟨true, 0⟩ }

/-- Source `getCell(x, y)`. -/
def GameEngine.getCell (e : GameEngine) (x y : Int) : Option Cell :=
  mapGet e.grid (x, y)

/-- Source `start(callback?)`: no-op when already running, otherwise mark running and
register a repeating interval at the current `speed` (`setInterval` returns a
fresh handle). -/
def GameEngine.start (e : GameEngine) : GameEngine :=
  if e.isRunning then e
  else
    { e with
      isRunning := true
      intervalId := some e.nextTimerId
      scheduled := e.scheduled ++ [(e.nextTimerId, e.speed)]
      nextTimerId := e.nextTimerId + 1 }

/-- Source `stop()`: if an interval handle is held, `clearInterval` it and drop the
handle; in all cases mark not running. -/
def GameEngine.stop (e : GameEngine) : GameEngine :=
  match e.intervalId with
  | some id =>
      { e with
        scheduled := e.scheduled.filter (fun t => if t.1 = id then false else true)
        intervalId := none
        isRunning := false }
  | none => { e with isRunning := false }

/-- Source `setSpeed(speed)`: record the period; if running, `stop()` then `start()`. -/
def GameEngine.setSpeed (e : GameEngine) (speed : Int) : GameEngine :=
  let e1 := { e with speed := speed }
  if e1.isRunning then e1.stop.start else e1

/-- Source `isSimulationRunning()`. -/
def GameEngine.isSimulationRunning (e : GameEngine) : Bool :=
  e.isRunning

/-- Source `clear()`: empty the grid and reset the generation counter (the run loop
is left untouched). -/
def GameEngine.clear (e : GameEngine) : GameEngine :=
  { e with grid := [], generation := 0 }

/-- Source `reset()`: clear both grids and the generation counter, then `stop()`. -/
def GameEngine.reset (e : GameEngine) : GameEngine :=
  GameEngine.stop { e with grid := [], nextGrid := [], generation := 0 }

/-- Source `getGeneration()`. -/
def GameEngine.getGeneration (e : GameEngine) : Nat :=
  e.generation

/-- The eight surrounding coordinates of `(x, y)`, in the order visited by the
source's nested loops (`nx` from `x-1` to `x+1` outside, `ny` from `y-1` to
`y+1` inside, skipping the centre). -/
def neighborCoords (p : Coord) : List Coord :=
  [(p.1 - 1, p.2 - 1), (p.1 - 1, p.2), (p.1 - 1, p.2 + 1),
   (p.1, p.2 - 1), (p.1, p.2 + 1),
   (p.1 + 1, p.2 - 1), (p.1 + 1, p.2), (p.1 + 1, p.2 + 1)]

/-- Source `countLiveNeighbors(x, y)`: scan the eight surrounding coordinates and
count the entries of the current grid that are present and alive. -/
def countLiveNeighbors (g : Grid) (x y : Int) : Nat :=
  (neighborCoords (x, y)).foldl
    (fun count k =>
      match mapGet g k with
      | some c => if c.alive then count + 1 else count
      | none => count) 0

/-- Source `Set.add`: append the element unless it is already present
(JS `Set` deduplicates and iterates in insertion order). -/
def setAdd (s : List Coord) (k : Coord) : List Coord :=
  if k ∈ s then s else s ++ [k]

/-- The `cellsToCheck` set built by `nextGeneration`: every key of the grid
together with all eight of its neighbours, deduplicated, in insertion order. -/
def cellsToCheck (g : Grid) : List Coord :=
  g.foldl (fun s kc => (neighborCoords kc.1).foldl setAdd (setAdd s kc.1)) []

/-- The body of the rules loop of `nextGeneration`, applied to one candidate
`k` with `g` the pre-update grid and `ng` the next grid being built. -/
def applyRules (g : Grid) (ng : Grid) (k : Coord) : Grid :=
  let liveNeighbors := countLiveNeighbors g k.1 k.2
  match mapGet g k with
  | some c =>
      if c.alive then
        if liveNeighbors = 2 ∨ liveNeighbors = 3 then
          mapSet ng k ⟨true, c.age + 1⟩
        else ng
      else
        if liveNeighbors = 3 then mapSet ng k ⟨true, 0⟩ else ng
  | none =>
      if liveNeighbors = 3 then mapSet ng k ⟨true, 0⟩ else ng

/-- Source `nextGeneration()`: clear `nextGrid`, build the candidate set, apply the
rules to each candidate against the pre-update grid, replace the grid with
the newly built one and increment the generation counter. -/
def GameEngine.nextGeneration (e : GameEngine) : GameEngine :=
  let candidates := cellsToCheck e.grid
  let ng := candidates.foldl (applyRules e.grid) []
  { e with grid := ng, nextGrid := ng, generation := e.generation + 1 }

/-- Iterate `nextGeneration` k times. -/
def stepN : Nat → GameEngine → GameEngine
  | 0, e => e
  | n + 1, e => (stepN n e).nextGeneration

/-- Source `addPattern(pattern, offsetX, offsetY)`: stamp each offset alive in list
order via `setCell`. -/
def GameEngine.addPattern (e : GameEngine) (pattern : List (Int × Int))
    (offsetX offsetY : Int) : GameEngine :=
  pattern.foldl (fun e1 d => e1.setCell (d.1 + offsetX) (d.2 + offsetY) true) e

namespace PATTERNS

/-- Source `PATTERNS.GLIDER`. -/
def GLIDER : List (Int × Int) :=
  [(0, 0), (1, 1), (2, -1), (2, 0), (2, 1)]

/-- Source `PATTERNS.BLINKER`. -/
def BLINKER : List (Int × Int) :=
  [(0, 0), (1, 0), (2, 0)]

end PATTERNS

/-- Whether the grid holds a live cell at `p` (absent means dead). -/
def gridLive (g : Grid) (p : Coord) : Bool :=
  match mapGet g p with
  | some c => c.alive
  | none => false

/-- The value `nextGeneration` stores at a candidate coordinate, read off the
rules branch of `applyRules`. -/
def ruleResult (g : Grid) (p : Coord) : Option Cell :=
  let liveNeighbors := countLiveNeighbors g p.1 p.2
  match mapGet g p with
  | some c =>
      if c.alive then
        if liveNeighbors = 2 ∨ liveNeighbors = 3 then
          some ⟨true, c.age + 1⟩
        else none
      else
        if liveNeighbors = 3 then some ⟨true, 0⟩ else none
  | none =>
      if liveNeighbors = 3 then some ⟨true, 0⟩ else none

/-- Spec-side definition: the number of the eight surrounding coordinates
that are live in the configuration `L`. -/
def lifeNeighborCount (L : Coord → Bool) (p : Coord) : Nat :=
  (neighborCoords p).countP L

/-- Spec-side definition, following the rule statement of the spec: a live
cell survives iff its live-neighbour count is 2 or 3, a dead cell is born iff
its count is exactly 3.  This is the mathematical Game of Life successor of
the live-cell set `L`. -/
def lifeStep (L : Coord → Bool) (p : Coord) : Bool :=
  if L p then
    decide (lifeNeighborCount L p = 2 ∨ lifeNeighborCount L p = 3)
  else
    decide (lifeNeighborCount L p = 3)

/-- Iterate the mathematical successor n times. -/
def lifeStepN : Nat → (Coord → Bool) → Coord → Bool
  | 0, L => L
  | n + 1, L => lifeStep (lifeStepN n L)

/-- Translate a configuration by `v`: cell `p` of the result is cell `p - v`
of the original. -/
def shiftConf (v : Coord) (L : Coord → Bool) : Coord → Bool :=
  fun p => L (p.1 - v.1, p.2 - v.2)

/-- The live-cell configuration of a freshly stamped blinker anchored at `a`. -/
def blinkerConf (a : Coord) : Coord → Bool :=
  fun p => decide (p = (a.1, a.2) ∨ p = (a.1 + 1, a.2) ∨ p = (a.1 + 2, a.2))

/-- The live-cell configuration of a freshly stamped glider anchored at `a`. -/
def gliderConf (a : Coord) : Coord → Bool :=
  fun p => decide (p = (a.1, a.2) ∨ p = (a.1 + 1, a.2 + 1) ∨ p = (a.1 + 2, a.2 - 1) ∨
    p = (a.1 + 2, a.2) ∨ p = (a.1 + 2, a.2 + 1))

/-- Every entry of the grid is stored with `alive = true` (the data-model
invariant of the spec: absence means dead). -/
def WFGrid (g : Grid) : Prop :=
  ∀ kc ∈ g, kc.2.alive = true

/-- The scheduling invariant of reachable engine states: a stopped engine
holds no interval handle. -/
def TimerInv (e : GameEngine) : Prop :=
  e.isRunning = false → e.intervalId = none

/-- A 2x2 block (a still life), used to exercise the age-increment invariant
on a cell that survives. -/
def blockEngine : GameEngine :=
  (((GameEngine.init.setCell 0 0 true).setCell 1 0 true).setCell 0 1 true).setCell 1 1 true

namespace KeyCodec

/-!
The engine keys its `Map` by the template string `${x},${y}` and decodes keys
with `key.split(',').map(Number)`.  Strings are embedded as `List Char`.
`natToChars` is the decimal rendering of a non-negative JS number (most
significant digit first); `intToChars` prefixes `'-'` for negatives, which is
exactly how JS stringifies integral numbers in the safe range.  `jsNumber`
models `Number(s)` on the canonical integer strings this codec produces
(an optional leading `'-'` followed by decimal digits).
-/

/-- The character of a single decimal digit. -/
def digitChar (n : Nat) : Char :=
  Char.ofNat (48 + n)

/-- Decimal rendering of a natural number, most significant digit first. -/
def natToChars (n : Nat) : List Char :=
  if _h : n < 10 then [digitChar n]
  else natToChars (n / 10) ++ [digitChar (n % 10)]
termination_by n
decreasing_by exact Nat.div_lt_self (by omega) (by omega)

/-- Reading a digit string back as a natural number. -/
def parseNat (s : List Char) : Nat :=
  s.foldl (fun acc c => acc * 10 + (c.toNat - 48)) 0

/-- JS stringification of an integral number: digits, with a leading minus
sign when negative. -/
def intToChars (i : Int) : List Char :=
  if i < 0 then '-' :: natToChars i.natAbs else natToChars i.toNat

/-- The grid key produced by the template `${x},${y}`. -/
def encodeKey (x y : Int) : List Char :=
  intToChars x ++ ',' :: intToChars y

/-- Source `String.prototype.split(',')`. -/
def splitOnComma : List Char → List (List Char)
  | [] => [[]]
  | c :: rest =>
    if c = ',' then [] :: splitOnComma rest
    else
      match splitOnComma rest with
      | [] => [[c]]
      | s :: ss => (c :: s) :: ss

/-- Source `Number(s)` restricted to canonical integer strings: an optional leading
minus sign followed by decimal digits. -/
def jsNumber (s : List Char) : Int :=
  match s with
  | '-' :: rest => -(parseNat rest : Int)
  | _ => (parseNat s : Int)

/-- Source `key.split(',').map(Number)` read back as a coordinate pair, as done in
`nextGeneration`. -/
def decodeKey (s : List Char) : Int × Int :=
  match splitOnComma s with
  | [a, b] => (jsNumber a, jsNumber b)
  | _ => (0, 0)

end KeyCodec

namespace RefModel

/-!
`getState()` returns `{ grid: new Map(this.grid), generation }`.  The `Map`
copy duplicates the (key, Cell-reference) entries but not the Cell objects
themselves, so the snapshot and the engine share the underlying Cells.  This
reference-level model makes that sharing explicit: `store` is the JS heap of
Cell objects indexed by reference, and grids map coordinates to references.
-/

/-- A reference to a heap-allocated Cell object. -/
abbrev CellRef := Nat

/-- The world visible to an engine plus one holder of a `getState()`
snapshot: the shared heap of Cell objects, the engine's internal grid and
generation, and the snapshot's grid and generation. -/
structure RefWorld where
  store : List Cell
  engGrid : List (Coord × CellRef)
  engGeneration : Nat
  snapGrid : List (Coord × CellRef)
  snapGeneration : Nat
deriving DecidableEq, Repr

/-- First-match lookup in a reference-valued map. -/
def refGet (g : List (Coord × CellRef)) (k : Coord) : Option CellRef :=
  match g with
  | [] => none
  | kc :: rest => if kc.1 = k then some kc.2 else refGet rest k

/-- Source `Map.set` on a reference-valued map. -/
def refSet (g : List (Coord × CellRef)) (k : Coord) (r : CellRef) :
    List (Coord × CellRef) :=
  match g with
  | [] => [(k, r)]
  | kc :: rest => if kc.1 = k then (k, r) :: rest else kc :: refSet rest k r

/-- Source `Map.delete` on a reference-valued map. -/
def refDelete (g : List (Coord × CellRef)) (k : Coord) : List (Coord × CellRef) :=
  match g with
  | [] => []
  | kc :: rest => if kc.1 = k then refDelete rest k else kc :: refDelete rest k

/-- Source `getState()`: the snapshot grid is a fresh `Map` holding the same
(key, reference) entries as the engine's grid, and the generation is copied. -/
def takeSnapshot (store : List Cell) (engGrid : List (Coord × CellRef))
    (engGeneration : Nat) : RefWorld :=
  { store := store
    engGrid := engGrid
    engGeneration := engGeneration
    snapGrid := engGrid
    snapGeneration := engGeneration }

/-- The cell the engine itself observes at `k` (what `getCell` and
`nextGeneration` read). -/
def engObserve (w : RefWorld) (k : Coord) : Option Cell :=
  match refGet w.engGrid k with
  | some r => w.store.get? r
  | none => none

/-- A snapshot holder mutating the structure of the returned `Map`:
`snap.grid.set(k, r)`. -/
def snapSetEntry (w : RefWorld) (k : Coord) (r : CellRef) : RefWorld :=
  { w with snapGrid := refSet w.snapGrid k r }

/-- A snapshot holder mutating the structure of the returned `Map`:
`snap.grid.delete(k)`. -/
def snapDeleteEntry (w : RefWorld) (k : Coord) : RefWorld :=
  { w with snapGrid := refDelete w.snapGrid k }

/-- A snapshot holder mutating a Cell object reached through the returned
`Map` in place (e.g. `snap.grid.get(k).age = 5`): a write to the shared
heap. -/
def snapWriteCell (w : RefWorld) (k : Coord) (c : Cell) : RefWorld :=
  match refGet w.snapGrid k with
  | some r => { w with store := w.store.set r c }
  | none => w

/-- A world with one live cell at the origin (age 0) whose `getState()`
snapshot has just been taken. -/
def exampleWorld : RefWorld :=
  takeSnapshot [⟨true, 0⟩] [((0, 0), 0)] 0

end RefModel

/-! ## Lemmas about the embedded `Map` operations -/

theorem mapGet_mapSet (g : Grid) (k : Coord) (c : Cell) (q : Coord) :
    mapGet (mapSet g k c) q = if k = q then some c else mapGet g q := by
  induction g with
  | nil => simp [mapSet, mapGet]
  | cons kc rest ih =>
      simp only [mapSet]
      by_cases h : kc.1 = k
      · rw [if_pos h]
        by_cases hq : k = q
        · simp [mapGet, hq]
        · have h2 : ¬kc.1 = q := by rw [h]; exact hq
          simp [mapGet, hq, h2]
      · rw [if_neg h]
        by_cases hq : kc.1 = q
        · have h2 : ¬k = q := fun he => h (hq.trans he.symm)
          simp [mapGet, hq, h2]
        · simp [mapGet, hq, ih]

theorem mapGet_mapDelete (g : Grid) (k : Coord) (q : Coord) :
    mapGet (mapDelete g k) q = if k = q then none else mapGet g q := by
  induction g with
  | nil => simp [mapDelete, mapGet]
  | cons kc rest ih =>
      simp only [mapDelete]
      by_cases h : kc.1 = k
      · rw [if_pos h, ih]
        by_cases hq : k = q
        · simp [hq]
        · have h2 : ¬kc.1 = q := by rw [h]; exact hq
          simp [mapGet, hq, h2]
      · rw [if_neg h]
        by_cases hq : kc.1 = q
        · have h2 : ¬k = q := fun he => h (hq.trans he.symm)
          simp [mapGet, hq, h2]
        · simp [mapGet, hq, ih]

theorem mapGet_mem {g : Grid} {k : Coord} {c : Cell} (h : mapGet g k = some c) :
    (k, c) ∈ g := by
  induction g with
  | nil => simp [mapGet] at h
  | cons kc rest ih =>
      obtain ⟨a, b⟩ := kc
      simp only [mapGet] at h
      by_cases hk : a = k
      · rw [if_pos hk] at h
        injection h with h2
        rw [hk, h2]
        exact List.mem_cons_self _ _
      · rw [if_neg hk] at h
        exact List.mem_cons_of_mem _ (ih h)

theorem gridLive_eq_true {g : Grid} {p : Coord} :
    gridLive g p = true ↔ ∃ c, mapGet g p = some c ∧ c.alive = true := by
  unfold gridLive
  cases h : mapGet g p <;> simp

/-! ## Neighbour counting -/

theorem countLive_foldl (g : Grid) (l : List Coord) (a : Nat) :
    l.foldl
      (fun count k =>
        match mapGet g k with
        | some c => if c.alive then count + 1 else count
        | none => count) a = a + l.countP (gridLive g) := by
  induction l generalizing a with
  | nil => simp
  | cons hd tl ih =>
      rcases h : mapGet g hd with _ | c
      · simp only [List.foldl_cons, List.countP_cons, h]
        rw [ih]
        simp [gridLive, h]
      · rcases hc : c.alive with _ | _
        · simp only [List.foldl_cons, List.countP_cons, h]
          simp only [hc]
          simp only [Bool.false_eq_true, if_false]
          rw [ih]
          simp [gridLive, h, hc]
        · simp only [List.foldl_cons, List.countP_cons, h]
          simp only [hc]
          simp only [if_true]
          rw [ih]
          simp [gridLive, h, hc]
          ring

theorem countLiveNeighbors_eq (g : Grid) (x y : Int) :
    countLiveNeighbors g x y = lifeNeighborCount (gridLive g) (x, y) := by
  unfold countLiveNeighbors lifeNeighborCount
  rw [countLive_foldl]
  simp

/-- Membership characterization of the eight-neighbour list, in a form
`omega` can consume. -/
theorem mem_neighborCoords {q p : Coord} :
    q ∈ neighborCoords p ↔
      ¬(q.1 = p.1 ∧ q.2 = p.2) ∧
        p.1 - 1 ≤ q.1 ∧ q.1 ≤ p.1 + 1 ∧ p.2 - 1 ≤ q.2 ∧ q.2 ≤ p.2 + 1 := by
  obtain ⟨qx, qy⟩ := q
  obtain ⟨px, py⟩ := p
  simp [neighborCoords, Prod.ext_iff]
  omega

theorem mem_neighborCoords_symm {q p : Coord} :
    q ∈ neighborCoords p ↔ p ∈ neighborCoords q := by
  rw [mem_neighborCoords, mem_neighborCoords]
  omega

theorem exists_live_neighbor {L : Coord → Bool} {p : Coord}
    (h : 0 < lifeNeighborCount L p) : ∃ q ∈ neighborCoords p, L q = true := by
  unfold lifeNeighborCount at h
  exact List.countP_pos_iff.mp h

/-! ## The candidate set -/

theorem mem_setAdd {s : List Coord} {k x : Coord} :
    x ∈ setAdd s k ↔ x ∈ s ∨ x = k := by
  unfold setAdd
  by_cases h : k ∈ s
  · rw [if_pos h]
    constructor
    · exact Or.inl
    · rintro (hx | rfl)
      · exact hx
      · exact h
  · rw [if_neg h]
    simp

theorem nodup_setAdd {s : List Coord} {k : Coord} (h : s.Nodup) :
    (setAdd s k).Nodup := by
  unfold setAdd
  by_cases hk : k ∈ s
  · rwa [if_pos hk]
  · rw [if_neg hk]
    simp [List.nodup_append, h, hk]

theorem mem_foldl_setAdd {l : List Coord} {s : List Coord} {x : Coord} :
    x ∈ l.foldl setAdd s ↔ x ∈ s ∨ x ∈ l := by
  induction l generalizing s with
  | nil => simp
  | cons hd tl ih =>
      simp only [List.foldl_cons, ih, mem_setAdd, List.mem_cons]
      tauto

theorem nodup_foldl_setAdd {l : List Coord} {s : List Coord} (h : s.Nodup) :
    (l.foldl setAdd s).Nodup := by
  induction l generalizing s with
  | nil => simpa
  | cons hd tl ih => exact ih (nodup_setAdd h)

theorem mem_cellsToCheck_aux {l : Grid} {s : List Coord} {x : Coord} :
    x ∈ l.foldl (fun s kc => (neighborCoords kc.1).foldl setAdd (setAdd s kc.1)) s ↔
      x ∈ s ∨ ∃ kc ∈ l, kc.1 = x ∨ x ∈ neighborCoords kc.1 := by
  induction l generalizing s with
  | nil => simp
  | cons hd tl ih =>
      simp only [List.foldl_cons, ih, mem_foldl_setAdd, mem_setAdd, List.mem_cons]
      constructor
      · rintro (((hs | rfl) | hn) | ⟨kc, hkc, hx⟩)
        · exact Or.inl hs
        · exact Or.inr ⟨hd, Or.inl rfl, Or.inl rfl⟩
        · exact Or.inr ⟨hd, Or.inl rfl, Or.inr hn⟩
        · exact Or.inr ⟨kc, Or.inr hkc, hx⟩
      · rintro (hs | ⟨kc, (rfl | hkc), hx⟩)
        · exact Or.inl (Or.inl (Or.inl hs))
        · rcases hx with rfl | hn
          · exact Or.inl (Or.inl (Or.inr rfl))
          · exact Or.inl (Or.inr hn)
        · exact Or.inr ⟨kc, hkc, hx⟩

theorem mem_cellsToCheck {g : Grid} {x : Coord} :
    x ∈ cellsToCheck g ↔ ∃ kc ∈ g, kc.1 = x ∨ x ∈ neighborCoords kc.1 := by
  unfold cellsToCheck
  rw [mem_cellsToCheck_aux]
  simp

theorem nodup_cellsToCheck (g : Grid) : (cellsToCheck g).Nodup := by
  unfold cellsToCheck
  have aux : ∀ (l : Grid) (s : List Coord), s.Nodup →
      (l.foldl (fun s kc => (neighborCoords kc.1).foldl setAdd (setAdd s kc.1)) s).Nodup := by
    intro l
    induction l with
    | nil => intro s hs; simpa
    | cons hd tl ih =>
        intro s hs
        rw [List.foldl_cons]
        exact ih _ (nodup_foldl_setAdd (nodup_setAdd hs))
  exact aux g [] List.nodup_nil

/-! ## Characterizing `nextGeneration` -/

theorem applyRules_eq (g ng : Grid) (k : Coord) :
    applyRules g ng k =
      match ruleResult g k with
      | some c => mapSet ng k c
      | none => ng := by
  simp only [applyRules, ruleResult]
  cases hm : mapGet g k with
  | none => split_ifs <;> rfl
  | some c =>
      dsimp only
      split_ifs <;> rfl

theorem ruleResult_none_of_not_mem {g : Grid} {p : Coord}
    (h : p ∉ cellsToCheck g) : ruleResult g p = none := by
  have hget : mapGet g p = none := by
    cases hm : mapGet g p with
    | none => rfl
    | some c =>
        exact absurd (mem_cellsToCheck.mpr ⟨(p, c), mapGet_mem hm, Or.inl rfl⟩) h
  have hcount : ¬countLiveNeighbors g p.1 p.2 = 3 := by
    intro h3
    rw [countLiveNeighbors_eq] at h3
    have hpos : 0 < lifeNeighborCount (gridLive g) (p.1, p.2) := by omega
    obtain ⟨q, hq, hlq⟩ := exists_live_neighbor hpos
    obtain ⟨c, hc, _⟩ := gridLive_eq_true.mp hlq
    apply h
    apply mem_cellsToCheck.mpr
    refine ⟨(q, c), mapGet_mem hc, Or.inr ?_⟩
    have hq2 : q ∈ neighborCoords p := by
      rw [show p = (p.1, p.2) from rfl]
      exact hq
    exact mem_neighborCoords_symm.mp hq2
  simp only [ruleResult, hget]
  rw [if_neg hcount]

theorem mapGet_foldl_applyRules (g : Grid) {l : List Coord} (hl : l.Nodup)
    (acc : Grid) (p : Coord) :
    mapGet (l.foldl (applyRules g) acc) p =
      if p ∈ l ∧ (ruleResult g p).isSome then ruleResult g p else mapGet acc p := by
  induction l generalizing acc with
  | nil => simp
  | cons hd tl ih =>
      have hhd : hd ∉ tl := (List.nodup_cons.mp hl).1
      have hl2 : tl.Nodup := (List.nodup_cons.mp hl).2
      rw [List.foldl_cons, ih hl2]
      by_cases hmem : p ∈ tl
      · by_cases hs : (ruleResult g p).isSome
        · simp [hmem, hs]
        · have hne : hd ≠ p := fun he => hhd (he ▸ hmem)
          rw [if_neg (by simp [hs]), if_neg (by simp [hs]), applyRules_eq]
          cases hr : ruleResult g hd with
          | none => rfl
          | some c => rw [mapGet_mapSet, if_neg hne]
      · by_cases hph : p = hd
        · subst hph
          rw [if_neg (by simp [hhd]), applyRules_eq]
          cases hr : ruleResult g p with
          | none =>
              rw [if_neg (by simp)]
          | some c =>
              rw [if_pos ⟨List.mem_cons_self _ _, by simp⟩, mapGet_mapSet,
                if_pos rfl]
        · have hne : hd ≠ p := fun he => hph he.symm
          have hnotin : p ∉ hd :: tl := by simp [hph, hmem]
          rw [if_neg (by simp [hmem]), if_neg (fun hc => hnotin hc.1), applyRules_eq]
          cases hr : ruleResult g hd with
          | none => rfl
          | some c => rw [mapGet_mapSet, if_neg hne]

theorem mapGet_nextGeneration (e : GameEngine) (p : Coord) :
    mapGet e.nextGeneration.grid p = ruleResult e.grid p := by
  have hg : e.nextGeneration.grid =
      (cellsToCheck e.grid).foldl (applyRules e.grid) [] := rfl
  rw [hg, mapGet_foldl_applyRules _ (nodup_cellsToCheck _)]
  by_cases hmem : p ∈ cellsToCheck e.grid
  · by_cases hs : (ruleResult e.grid p).isSome
    · rw [if_pos ⟨hmem, hs⟩]
    · rw [if_neg (fun hc => hs hc.2)]
      simp only [mapGet]
      exact (Option.not_isSome_iff_eq_none.mp hs).symm
  · rw [if_neg (fun hc => hmem hc.1)]
    simp only [mapGet]
    exact (ruleResult_none_of_not_mem hmem).symm

theorem countLiveNeighbors_eq2 (g : Grid) (p : Coord) :
    countLiveNeighbors g p.1 p.2 = lifeNeighborCount (gridLive g) p := by
  rw [countLiveNeighbors_eq]

theorem gridLive_nextGeneration (e : GameEngine) (p : Coord) :
    gridLive e.nextGeneration.grid p = lifeStep (gridLive e.grid) p := by
  have hmain : gridLive e.nextGeneration.grid p =
      match ruleResult e.grid p with
      | some c => c.alive
      | none => false := by
    unfold gridLive
    rw [mapGet_nextGeneration]
  have hcnt : countLiveNeighbors e.grid p.1 p.2 =
      lifeNeighborCount (gridLive e.grid) p := countLiveNeighbors_eq2 e.grid p
  cases hm : mapGet e.grid p with
  | none =>
      have hL : gridLive e.grid p = false := by unfold gridLive; rw [hm]
      have hr : ruleResult e.grid p =
          if lifeNeighborCount (gridLive e.grid) p = 3 then
            some ⟨true, 0⟩ else none := by
        simp only [ruleResult, hm, hcnt]
      have hls : lifeStep (gridLive e.grid) p =
          decide (lifeNeighborCount (gridLive e.grid) p = 3) := by
        unfold lifeStep
        rw [hL]
        simp
      rw [hmain, hr, hls]
      by_cases h3 : lifeNeighborCount (gridLive e.grid) p = 3 <;> simp [h3]
  | some c =>
      have hL : gridLive e.grid p = c.alive := by unfold gridLive; rw [hm]
      have hr : ruleResult e.grid p =
          if c.alive then
            (if lifeNeighborCount (gridLive e.grid) p = 2 ∨
                lifeNeighborCount (gridLive e.grid) p = 3 then
              some ⟨true, c.age + 1⟩ else none)
          else
            (if lifeNeighborCount (gridLive e.grid) p = 3 then
              some ⟨true, 0⟩ else none) := by
        simp only [ruleResult, hm, hcnt]
      rw [hmain, hr]
      unfold lifeStep
      rw [hL]
      cases hca : c.alive with
      | false =>
          by_cases h3 : lifeNeighborCount (gridLive e.grid) p = 3 <;> simp [h3]
      | true =>
          by_cases h23 : lifeNeighborCount (gridLive e.grid) p = 2 ∨
              lifeNeighborCount (gridLive e.grid) p = 3 <;> simp [h23]

theorem gridLive_stepN (k : Nat) (e : GameEngine) (p : Coord) :
    gridLive (stepN k e).grid p = lifeStepN k (gridLive e.grid) p := by
  induction k generalizing p with
  | zero => rfl
  | succ n ih =>
      have hstep : stepN (n + 1) e = (stepN n e).nextGeneration := rfl
      rw [hstep, gridLive_nextGeneration]
      exact congrFun (congrArg lifeStep (funext ih)) p

theorem generation_stepN (k : Nat) (e : GameEngine) :
    (stepN k e).generation = e.generation + k := by
  induction k with
  | zero => rfl
  | succ n ih =>
      have hstep : stepN (n + 1) e = (stepN n e).nextGeneration := rfl
      rw [hstep]
      show (stepN n e).generation + 1 = e.generation + (n + 1)
      omega

/-! ## `addPattern` and the stamped configurations -/

theorem mapGet_addPattern (pat : List (Int × Int)) (e : GameEngine)
    (ox oy : Int) (q : Coord) :
    mapGet (e.addPattern pat ox oy).grid q =
      if (pat.any fun d => decide (q = (d.1 + ox, d.2 + oy))) = true then
        some ⟨true, 0⟩
      else mapGet e.grid q := by
  induction pat generalizing e with
  | nil => simp [GameEngine.addPattern]
  | cons d t ih =>
      have hstep : e.addPattern (d :: t) ox oy =
          (e.setCell (d.1 + ox) (d.2 + oy) true).addPattern t ox oy := rfl
      rw [hstep, ih]
      have hset : (e.setCell (d.1 + ox) (d.2 + oy) true).grid =
          mapSet e.grid (d.1 + ox, d.2 + oy) ⟨true, 0⟩ := rfl
      by_cases ht : (t.any fun d2 => decide (q = (d2.1 + ox, d2.2 + oy))) = true
      · rw [if_pos ht, if_pos (by simp [List.any_cons, ht])]
      · rw [if_neg ht, hset, mapGet_mapSet]
        by_cases hq : (d.1 + ox, d.2 + oy) = q
        · rw [if_pos hq, if_pos (by simp [List.any_cons, hq.symm])]
        · have hq2 : ¬q = (d.1 + ox, d.2 + oy) := fun he => hq he.symm
          rw [if_neg hq, if_neg (by simp [List.any_cons, ht, hq2])]

theorem addPattern_generation (pat : List (Int × Int)) (e : GameEngine)
    (ox oy : Int) :
    (e.addPattern pat ox oy).generation = e.generation := by
  induction pat generalizing e with
  | nil => rfl
  | cons d t ih =>
      have hstep : e.addPattern (d :: t) ox oy =
          (e.setCell (d.1 + ox) (d.2 + oy) true).addPattern t ox oy := rfl
      rw [hstep, ih]
      rfl

theorem gridLive_blinker (a p : Coord) :
    gridLive (GameEngine.init.addPattern PATTERNS.BLINKER a.1 a.2).grid p =
      blinkerConf a p := by
  unfold gridLive
  rw [mapGet_addPattern]
  have hiff : ((PATTERNS.BLINKER.any fun d =>
      decide (p = (d.1 + a.1, d.2 + a.2))) = true) ↔
      (p = (a.1, a.2) ∨ p = (a.1 + 1, a.2) ∨ p = (a.1 + 2, a.2)) := by
    simp [PATTERNS.BLINKER, Prod.ext_iff]
    omega
  by_cases h : (PATTERNS.BLINKER.any fun d =>
      decide (p = (d.1 + a.1, d.2 + a.2))) = true
  · rw [if_pos h]
    have := hiff.mp h
    simp [blinkerConf, this]
  · rw [if_neg h]
    have hnot : ¬(p = (a.1, a.2) ∨ p = (a.1 + 1, a.2) ∨ p = (a.1 + 2, a.2)) :=
      fun hp => h (hiff.mpr hp)
    simp only [GameEngine.init, mapGet]
    simpa [blinkerConf, not_or] using hnot

theorem gridLive_glider (a p : Coord) :
    gridLive (GameEngine.init.addPattern PATTERNS.GLIDER a.1 a.2).grid p =
      gliderConf a p := by
  unfold gridLive
  rw [mapGet_addPattern]
  have hiff : ((PATTERNS.GLIDER.any fun d =>
      decide (p = (d.1 + a.1, d.2 + a.2))) = true) ↔
      (p = (a.1, a.2) ∨ p = (a.1 + 1, a.2 + 1) ∨ p = (a.1 + 2, a.2 - 1) ∨
        p = (a.1 + 2, a.2) ∨ p = (a.1 + 2, a.2 + 1)) := by
    simp [PATTERNS.GLIDER, Prod.ext_iff]
    omega
  by_cases h : (PATTERNS.GLIDER.any fun d =>
      decide (p = (d.1 + a.1, d.2 + a.2))) = true
  · rw [if_pos h]
    have := hiff.mp h
    simp [gliderConf, this]
  · rw [if_neg h]
    have hnot : ¬(p = (a.1, a.2) ∨ p = (a.1 + 1, a.2 + 1) ∨ p = (a.1 + 2, a.2 - 1) ∨
        p = (a.1 + 2, a.2) ∨ p = (a.1 + 2, a.2 + 1)) :=
      fun hp => h (hiff.mpr hp)
    simp only [GameEngine.init, mapGet]
    simpa [gliderConf, not_or] using hnot

/-! ## Translation equivariance of the successor -/

theorem neighborCoords_shift (v p : Coord) :
    neighborCoords (p.1 - v.1, p.2 - v.2) =
      (neighborCoords p).map (fun q => (q.1 - v.1, q.2 - v.2)) := by
  simp [neighborCoords, Prod.ext_iff]
  omega

theorem lifeNeighborCount_shift (v : Coord) (L : Coord → Bool) (p : Coord) :
    lifeNeighborCount (shiftConf v L) p =
      lifeNeighborCount L (p.1 - v.1, p.2 - v.2) := by
  unfold lifeNeighborCount
  rw [neighborCoords_shift, List.countP_map]
  rfl

theorem lifeStep_shift (v : Coord) (L : Coord → Bool) (p : Coord) :
    lifeStep (shiftConf v L) p = lifeStep L (p.1 - v.1, p.2 - v.2) := by
  unfold lifeStep
  rw [lifeNeighborCount_shift]
  rfl

theorem lifeStepN_shift (n : Nat) (v : Coord) (L : Coord → Bool) :
    lifeStepN n (shiftConf v L) = shiftConf v (lifeStepN n L) := by
  induction n with
  | zero => rfl
  | succ m ih =>
      funext p
      show lifeStep (lifeStepN m (shiftConf v L)) p =
        lifeStep (lifeStepN m L) (p.1 - v.1, p.2 - v.2)
      rw [ih, lifeStep_shift]

theorem blinkerConf_shift (a : Coord) :
    blinkerConf a = shiftConf a (blinkerConf (0, 0)) := by
  funext p
  unfold blinkerConf shiftConf
  rw [decide_eq_decide]
  simp only [Prod.ext_iff]
  omega

theorem gliderConf_shift (a : Coord) :
    gliderConf a = shiftConf a (gliderConf (0, 0)) := by
  funext p
  unfold gliderConf shiftConf
  rw [decide_eq_decide]
  simp only [Prod.ext_iff]
  omega

theorem shiftConf_shiftConf (v w : Coord) (L : Coord → Bool) :
    shiftConf v (shiftConf w L) = shiftConf (w.1 + v.1, w.2 + v.2) L := by
  funext p
  unfold shiftConf
  have harg : ((p.1 - v.1 - w.1, p.2 - v.2 - w.2) : Coord) =
      (p.1 - (w.1 + v.1), p.2 - (w.2 + v.2)) := by
    simp only [Prod.ext_iff]
    omega
  rw [harg]

theorem lifeStepN_add (m n : Nat) (L : Coord → Bool) :
    lifeStepN (m + n) L = lifeStepN m (lifeStepN n L) := by
  induction m with
  | zero => rw [Nat.zero_add]; rfl
  | succ k ih =>
      rw [show k + 1 + n = (k + n) + 1 from by omega]
      show lifeStep (lifeStepN (k + n) L) = lifeStep (lifeStepN k (lifeStepN n L))
      rw [ih]

/-! ## Concrete evolutions at the origin -/

set_option maxRecDepth 10000 in
theorem blinker_grid_two_origin :
    (stepN 2 (GameEngine.init.addPattern PATTERNS.BLINKER 0 0)).grid =
      [((0, 0), ⟨true, 0⟩), ((1, 0), ⟨true, 2⟩), ((2, 0), ⟨true, 0⟩)] := by
  decide

set_option maxRecDepth 100000 in
theorem glider_grid_four_origin :
    (stepN 4 (GameEngine.init.addPattern PATTERNS.GLIDER 0 0)).grid =
      [((1, 1), ⟨true, 0⟩), ((3, 0), ⟨true, 3⟩), ((3, 1), ⟨true, 2⟩),
        ((2, 2), ⟨true, 1⟩), ((3, 2), ⟨true, 0⟩)] := by
  decide

theorem lifeStepN_blinker_origin (p : Coord) :
    lifeStepN 2 (blinkerConf (0, 0)) p = blinkerConf (0, 0) p := by
  have hconf : gridLive (GameEngine.init.addPattern PATTERNS.BLINKER 0 0).grid =
      blinkerConf (0, 0) := funext fun q => gridLive_blinker (0, 0) q
  have hstep := gridLive_stepN 2 (GameEngine.init.addPattern PATTERNS.BLINKER 0 0) p
  rw [hconf] at hstep
  rw [← hstep, blinker_grid_two_origin]
  obtain ⟨px, py⟩ := p
  simp only [gridLive, mapGet, blinkerConf]
  split_ifs with h1 h2 h3 <;> simp_all [Prod.ext_iff] <;> omega

theorem lifeStepN_glider_origin (p : Coord) :
    lifeStepN 4 (gliderConf (0, 0)) p = gliderConf (1, 1) p := by
  have hconf : gridLive (GameEngine.init.addPattern PATTERNS.GLIDER 0 0).grid =
      gliderConf (0, 0) := funext fun q => gridLive_glider (0, 0) q
  have hstep := gridLive_stepN 4 (GameEngine.init.addPattern PATTERNS.GLIDER 0 0) p
  rw [hconf] at hstep
  rw [← hstep, glider_grid_four_origin]
  obtain ⟨px, py⟩ := p
  simp only [gridLive, mapGet, gliderConf]
  split_ifs with h1 h2 h3 h4 h5 <;> simp_all [Prod.ext_iff] <;> omega

theorem lifeStepN_four_glider (a : Coord) :
    lifeStepN 4 (gliderConf a) =
      fun p => gliderConf a (p.1 - 1, p.2 - 1) := by
  rw [gliderConf_shift, lifeStepN_shift,
    funext lifeStepN_glider_origin, gliderConf_shift (1, 1), shiftConf_shiftConf]
  funext p
  unfold shiftConf
  congr 1
  simp only [Prod.ext_iff]
  omega

/-! ## Age bookkeeping across a step -/

theorem gridLive_next_as_rule (e : GameEngine) (p : Coord) :
    gridLive e.nextGeneration.grid p =
      match ruleResult e.grid p with
      | some c => c.alive
      | none => false := by
  unfold gridLive
  rw [mapGet_nextGeneration]

theorem survivor_age {e : GameEngine} {p : Coord} {c : Cell}
    (hm : mapGet e.grid p = some c) (hca : c.alive = true)
    (hl : gridLive e.nextGeneration.grid p = true) :
    mapGet e.nextGeneration.grid p = some ⟨true, c.age + 1⟩ := by
  have hrr : ruleResult e.grid p =
      if countLiveNeighbors e.grid p.1 p.2 = 2 ∨
          countLiveNeighbors e.grid p.1 p.2 = 3 then
        some ⟨true, c.age + 1⟩ else none := by
    simp [ruleResult, hm, hca]
  rw [mapGet_nextGeneration, hrr]
  by_cases hc : countLiveNeighbors e.grid p.1 p.2 = 2 ∨
      countLiveNeighbors e.grid p.1 p.2 = 3
  · rw [if_pos hc]
  · rw [gridLive_next_as_rule, hrr, if_neg hc] at hl
    simp at hl

theorem born_age {e : GameEngine} {p : Coord}
    (hd : gridLive e.grid p = false)
    (hl : gridLive e.nextGeneration.grid p = true) :
    mapGet e.nextGeneration.grid p = some ⟨true, 0⟩ := by
  have hrr : ruleResult e.grid p =
      if countLiveNeighbors e.grid p.1 p.2 = 3 then some ⟨true, 0⟩ else none := by
    cases hm : mapGet e.grid p with
    | none => simp [ruleResult, hm]
    | some c =>
        have hca : c.alive = false := by
          unfold gridLive at hd
          rw [hm] at hd
          exact hd
        simp [ruleResult, hm, hca]
  rw [mapGet_nextGeneration, hrr]
  by_cases h3 : countLiveNeighbors e.grid p.1 p.2 = 3
  · rw [if_pos h3]
  · rw [gridLive_next_as_rule, hrr, if_neg h3] at hl
    simp at hl

theorem age_counts_up {e : GameEngine} {p : Coord} (k : Nat)
    (h0 : mapGet e.grid p = some ⟨true, 0⟩)
    (hs : ∀ i, i ≤ k → gridLive (stepN i e).grid p = true) :
    mapGet (stepN k e).grid p = some ⟨true, k⟩ := by
  induction k with
  | zero => exact h0
  | succ n ih =>
      have hn := ih (fun i hi => hs i (by omega))
      have hstep : stepN (n + 1) e = (stepN n e).nextGeneration := rfl
      rw [hstep]
      exact survivor_age hn rfl (by rw [← hstep]; exact hs (n + 1) (le_refl _))

namespace KeyCodec

/-! ## Round-trip of the string key codec -/

theorem parseNat_append (s t : List Char) :
    parseNat (s ++ t) =
      t.foldl (fun acc c => acc * 10 + (c.toNat - 48)) (parseNat s) := by
  unfold parseNat
  rw [List.foldl_append]

theorem digitChar_toNat {d : Nat} (h : d < 10) : (digitChar d).toNat = 48 + d := by
  interval_cases d <;> decide

theorem natToChars_all_digits (n : Nat) :
    ∀ c ∈ natToChars n, 48 ≤ c.toNat ∧ c.toNat ≤ 57 := by
  induction n using Nat.strong_induction_on with
  | _ n ih =>
      rw [natToChars]
      by_cases h : n < 10
      · rw [dif_pos h]
        intro c hc
        rw [List.mem_singleton] at hc
        subst hc
        rw [digitChar_toNat h]
        omega
      · rw [dif_neg h]
        intro c hc
        rcases List.mem_append.mp hc with h1 | h2
        · exact ih (n / 10) (Nat.div_lt_self (by omega) (by omega)) c h1
        · rw [List.mem_singleton] at h2
          subst h2
          rw [digitChar_toNat (Nat.mod_lt _ (by omega))]
          omega

theorem ne_comma_of_digit {c : Char} (h : 48 ≤ c.toNat ∧ c.toNat ≤ 57) :
    c ≠ ',' := by
  intro he
  subst he
  have h44 : (',').toNat = 44 := rfl
  omega

theorem parseNat_natToChars (n : Nat) : parseNat (natToChars n) = n := by
  induction n using Nat.strong_induction_on with
  | _ n ih =>
      rw [natToChars]
      by_cases h : n < 10
      · rw [dif_pos h]
        show 0 * 10 + ((digitChar n).toNat - 48) = n
        rw [digitChar_toNat h]
        omega
      · rw [dif_neg h, parseNat_append]
        show parseNat (natToChars (n / 10)) * 10 +
          ((digitChar (n % 10)).toNat - 48) = n
        rw [ih (n / 10) (Nat.div_lt_self (by omega) (by omega)),
          digitChar_toNat (Nat.mod_lt _ (by omega))]
        omega

theorem splitOnComma_no_comma {b : List Char} (hb : ∀ c ∈ b, c ≠ ',') :
    splitOnComma b = [b] := by
  induction b with
  | nil => rfl
  | cons c t ih =>
      have hc : c ≠ ',' := hb c (List.mem_cons_self _ _)
      simp only [splitOnComma]
      rw [if_neg hc, ih (fun c2 h2 => hb c2 (List.mem_cons_of_mem _ h2))]

theorem splitOnComma_append {a : List Char} (b : List Char)
    (ha : ∀ c ∈ a, c ≠ ',') :
    splitOnComma (a ++ ',' :: b) = a :: splitOnComma b := by
  induction a with
  | nil => simp [splitOnComma]
  | cons c t ih =>
      have hc : c ≠ ',' := ha c (List.mem_cons_self _ _)
      simp only [List.cons_append, splitOnComma]
      rw [if_neg hc]
      simp only [List.append_eq]
      rw [ih (fun c2 h2 => ha c2 (List.mem_cons_of_mem _ h2))]

theorem natToChars_ne_nil (n : Nat) : natToChars n ≠ [] := by
  rw [natToChars]
  by_cases h : n < 10
  · rw [dif_pos h]
    simp
  · rw [dif_neg h]
    simp

theorem jsNumber_natToChars (n : Nat) : jsNumber (natToChars n) = (n : Int) := by
  cases hn : natToChars n with
  | nil => exact absurd hn (natToChars_ne_nil n)
  | cons c t =>
      have hd : 48 ≤ c.toNat ∧ c.toNat ≤ 57 :=
        natToChars_all_digits n c (by rw [hn]; exact List.mem_cons_self _ _)
      have hne : c ≠ '-' := by
        intro he
        subst he
        have h45 : ('-').toNat = 45 := rfl
        omega
      unfold jsNumber
      split
      · next rest heq =>
          injection heq with h1 h2
          exact absurd h1 hne
      · rw [← hn, parseNat_natToChars]

theorem intToChars_no_comma (i : Int) : ∀ c ∈ intToChars i, c ≠ ',' := by
  unfold intToChars
  by_cases h : i < 0
  · rw [if_pos h]
    intro c hc
    rcases List.mem_cons.mp hc with rfl | h2
    · decide
    · exact ne_comma_of_digit (natToChars_all_digits _ c h2)
  · rw [if_neg h]
    intro c hc
    exact ne_comma_of_digit (natToChars_all_digits _ c hc)

theorem jsNumber_intToChars (i : Int) : jsNumber (intToChars i) = i := by
  unfold intToChars
  by_cases h : i < 0
  · rw [if_pos h]
    show jsNumber ('-' :: natToChars i.natAbs) = i
    unfold jsNumber
    split
    · next rest heq =>
        injection heq with h1 h2
        rw [← h2, parseNat_natToChars]
        omega
    · next hno => exact absurd rfl (hno (natToChars i.natAbs))
  · rw [if_neg h]
    rw [jsNumber_natToChars]
    omega

theorem decodeKey_encodeKey (x y : Int) :
    decodeKey (encodeKey x y) = (x, y) := by
  unfold encodeKey decodeKey
  rw [splitOnComma_append (intToChars y) (intToChars_no_comma x),
    splitOnComma_no_comma (intToChars_no_comma y)]
  dsimp only
  rw [jsNumber_intToChars, jsNumber_intToChars]

end KeyCodec

/-! ## Scheduling helpers -/

theorem start_isRunning (e : GameEngine) : e.start.isRunning = true := by
  unfold GameEngine.start
  split_ifs with h
  · exact h
  · rfl

theorem stop_isRunning (e : GameEngine) : e.stop.isRunning = false := by
  unfold GameEngine.stop
  cases e.intervalId <;> rfl

theorem stop_intervalId (e : GameEngine) : e.stop.intervalId = none := by
  cases h : e.intervalId <;> simp [GameEngine.stop, h]

theorem stop_speed (e : GameEngine) : e.stop.speed = e.speed := by
  cases h : e.intervalId <;> simp [GameEngine.stop, h]

theorem start_speed (e : GameEngine) : e.start.speed = e.speed := by
  unfold GameEngine.start
  split_ifs <;> rfl

theorem stop_generation (e : GameEngine) : e.stop.generation = e.generation := by
  cases h : e.intervalId <;> simp [GameEngine.stop, h]

theorem start_generation (e : GameEngine) : e.start.generation = e.generation := by
  unfold GameEngine.start
  split_ifs <;> rfl

theorem timerInv_init : TimerInv GameEngine.init := fun _ => rfl

theorem timerInv_start (e : GameEngine) : TimerInv e.start := by
  intro h
  rw [start_isRunning] at h
  simp at h

theorem timerInv_stop (e : GameEngine) : TimerInv e.stop :=
  fun _ => stop_intervalId e

/-- The scheduling invariant (not running implies no interval handle) holds
initially and is preserved by every engine operation, so it holds in every
reachable state. -/
theorem timerInv_preserved (e : GameEngine) (s x y : Int) (b : Bool)
    (pat : List (Int × Int)) (h : TimerInv e) :
    TimerInv (e.setSpeed s) ∧ TimerInv e.nextGeneration ∧
    TimerInv (e.setCell x y b) ∧ TimerInv (e.toggleCell x y) ∧
    TimerInv e.clear ∧ TimerInv e.reset ∧
    TimerInv (e.addPattern pat x y) := by
  refine ⟨?_, h, ?_, ?_, h, timerInv_stop _, ?_⟩
  · unfold GameEngine.setSpeed
    by_cases hr : e.isRunning
    · have : ({ e with speed := s } : GameEngine).isRunning = true := hr
      rw [if_pos this]
      exact timerInv_start _
    · have : ¬({ e with speed := s } : GameEngine).isRunning = true := hr
      rw [if_neg this]
      exact fun h2 => h h2
  · unfold GameEngine.setCell
    split_ifs <;> exact fun h2 => h h2
  · unfold GameEngine.toggleCell
    cases mapGet e.grid (x, y) <;> exact fun h2 => h h2
  · have haux : ∀ (l : List (Int × Int)) (e1 : GameEngine), TimerInv e1 →
        TimerInv (e1.addPattern l x y) := by
      intro l
      induction l with
      | nil => exact fun e1 h1 => h1
      | cons d t ih =>
          intro e1 h1
          have hstep : e1.addPattern (d :: t) x y =
              (e1.setCell (d.1 + x) (d.2 + y) true).addPattern t x y := rfl
          rw [hstep]
          exact ih _ (fun h2 => h1 h2)
    exact haux pat e h

/-! ## Claim theorems -/

/-- C1: `nextGeneration` computes exactly the Conway step: it increments the
generation counter by exactly 1 and replaces the grid by the newly built one,
whose live-cell set is (pointwise, over the whole unbounded plane) the
mathematical Game of Life successor `lifeStep` of the pre-update live-cell
set — a live cell is kept iff its live-neighbour count against the pre-update
grid is 2 or 3, a dead cell (candidate or not) is live next iff its count is
exactly 3. -/
theorem nextGeneration_conway_step (e : GameEngine) :
    e.nextGeneration.generation = e.generation + 1 ∧
    ∀ p, gridLive e.nextGeneration.grid p = lifeStep (gridLive e.grid) p :=
  ⟨rfl, gridLive_nextGeneration e⟩

/-- C2, counterexample: `getState()` copies the `Map` but not the Cell
objects, so a snapshot holder that mutates a returned Cell in place
(here writing age 5 through the snapshot of a single age-0 cell at the
origin) changes what the engine itself observes at that coordinate: the
claim that any mutation of the returned grid, including of the Cell values
it contains, leaves the engine unchanged is false. -/
theorem getState_shared_cell_counterexample :
    RefModel.engObserve
        (RefModel.snapWriteCell RefModel.exampleWorld (0, 0) ⟨true, 5⟩)
        (0, 0) = some ⟨true, 5⟩ ∧
    RefModel.engObserve RefModel.exampleWorld (0, 0) = some ⟨true, 0⟩ := by
  constructor <;> rfl

/-- C2, amended: mutating the structure of the `Map` returned by
`getState()` — adding, overwriting or removing entries — never affects the
engine-internal grid, generation, or what the engine observes at any
coordinate, because the `Map` itself is copied; but the copy is shallow: the
snapshot holds the very same Cell references as the engine's grid, so
in-place mutation of a returned Cell is visible to the engine. -/
theorem getState_snapshot_amended (w : RefModel.RefWorld) (k : Coord)
    (r : RefModel.CellRef) (q : Coord) :
    RefModel.engObserve (RefModel.snapSetEntry w k r) q =
      RefModel.engObserve w q ∧
    RefModel.engObserve (RefModel.snapDeleteEntry w k) q =
      RefModel.engObserve w q ∧
    (RefModel.snapSetEntry w k r).engGrid = w.engGrid ∧
    (RefModel.snapDeleteEntry w k).engGrid = w.engGrid ∧
    (RefModel.snapSetEntry w k r).engGeneration = w.engGeneration ∧
    (RefModel.snapDeleteEntry w k).engGeneration = w.engGeneration ∧
    RefModel.refGet
        (RefModel.takeSnapshot w.store w.engGrid w.engGeneration).snapGrid q =
      RefModel.refGet w.engGrid q :=
  ⟨rfl, rfl, rfl, rfl, rfl, rfl, rfl⟩

/-- C3: every cell inserted by `setCell(x,y,true)`, by `toggleCell` on an
absent cell, or by `addPattern` has age 0; in `nextGeneration` a surviving
cell's age is its previous age plus 1 and a newly born cell's age is 0; and
consequently a cell alive with age 0 that is still alive after each of `k`
consecutive `nextGeneration` calls has age exactly `k` at the end. -/
theorem age_semantics :
    (∀ (e : GameEngine) (x y : Int),
      mapGet (e.setCell x y true).grid (x, y) = some ⟨true, 0⟩) ∧
    (∀ (e : GameEngine) (x y : Int), mapGet e.grid (x, y) = none →
      mapGet (e.toggleCell x y).grid (x, y) = some ⟨true, 0⟩) ∧
    (∀ (e : GameEngine) (pat : List (Int × Int)) (ox oy : Int),
      ∀ d ∈ pat,
        mapGet (e.addPattern pat ox oy).grid (d.1 + ox, d.2 + oy) =
          some ⟨true, 0⟩) ∧
    (∀ (e : GameEngine) (p : Coord) (c : Cell),
      mapGet e.grid p = some c → c.alive = true →
      gridLive e.nextGeneration.grid p = true →
      mapGet e.nextGeneration.grid p = some ⟨true, c.age + 1⟩) ∧
    (∀ (e : GameEngine) (p : Coord),
      gridLive e.grid p = false → gridLive e.nextGeneration.grid p = true →
      mapGet e.nextGeneration.grid p = some ⟨true, 0⟩) ∧
    (∀ (e : GameEngine) (p : Coord) (k : Nat),
      mapGet e.grid p = some ⟨true, 0⟩ →
      (∀ i, i ≤ k → gridLive (stepN i e).grid p = true) →
      mapGet (stepN k e).grid p = some ⟨true, k⟩) := by
  refine ⟨?_, ?_, ?_, ?_, ?_, ?_⟩
  · intro e x y
    show mapGet (mapSet e.grid (x, y) ⟨true, 0⟩) (x, y) = some ⟨true, 0⟩
    rw [mapGet_mapSet, if_pos rfl]
  · intro e x y h
    simp only [GameEngine.toggleCell, h]
    show mapGet (mapSet e.grid (x, y) ⟨true, 0⟩) (x, y) = some ⟨true, 0⟩
    rw [mapGet_mapSet, if_pos rfl]
  · intro e pat ox oy d hd
    rw [mapGet_addPattern,
      if_pos (List.any_eq_true.mpr ⟨d, hd, by simp⟩)]
  · exact fun e p c hm hca hl => survivor_age hm hca hl
  · exact fun e p hd hl => born_age hd hl
  · exact fun e p k h0 hs => age_counts_up k h0 hs

set_option maxRecDepth 10000 in
/-- Witness for C3: in the 2x2 block still life, the cell at the origin
starts at age 0, stays alive through 2 generations, and indeed has age 2
afterwards. -/
theorem age_semantics_witness :
    mapGet blockEngine.grid (0, 0) = some ⟨true, 0⟩ ∧
    mapGet (stepN 2 blockEngine).grid (0, 0) = some ⟨true, 2⟩ := by
  constructor
  · decide
  · exact age_semantics.2.2.2.2.2 blockEngine (0, 0) 2 (by decide)
      (by intro i hi; interval_cases i <;> decide)

/-- C4: `addPattern(pattern, ox, oy)` sets exactly the translated offsets
alive with age 0 (overwriting any prior age), leaves every other cell's
entry unchanged, and does not change the generation counter; in particular
stamping the built-in BLINKER at (5,5) on the fresh engine yields exactly
the live cells (5,5), (6,5), (7,5), each with age 0. -/
theorem addPattern_stamps (e : GameEngine) (pat : List (Int × Int))
    (ox oy : Int) (q : Coord) :
    (mapGet (e.addPattern pat ox oy).grid q =
      if (pat.any fun d => decide (q = (d.1 + ox, d.2 + oy))) = true then
        some ⟨true, 0⟩
      else mapGet e.grid q) ∧
    (e.addPattern pat ox oy).generation = e.generation ∧
    (mapGet (GameEngine.init.addPattern PATTERNS.BLINKER 5 5).grid q =
      if q = (5, 5) ∨ q = (6, 5) ∨ q = (7, 5) then some ⟨true, 0⟩ else none) := by
  refine ⟨mapGet_addPattern pat e ox oy q, addPattern_generation pat e ox oy, ?_⟩
  rw [mapGet_addPattern]
  have hiff : ((PATTERNS.BLINKER.any fun d =>
      decide (q = (d.1 + 5, d.2 + 5))) = true) ↔
      (q = (5, 5) ∨ q = (6, 5) ∨ q = (7, 5)) := by
    simp [PATTERNS.BLINKER, Prod.ext_iff]
  by_cases h : q = (5, 5) ∨ q = (6, 5) ∨ q = (7, 5)
  · rw [if_pos (hiff.mpr h), if_pos h]
  · rw [if_neg (fun hh => h (hiff.mp hh)), if_neg h]
    rfl

/-- C5: stamping the built-in BLINKER at any anchor on the fresh engine and
applying `nextGeneration` exactly twice returns the live-cell set to exactly
its original value, which is the 3-cell horizontal triple at the anchor. -/
theorem blinker_period_two (a : Coord) (p : Coord) :
    gridLive (stepN 2 (GameEngine.init.addPattern PATTERNS.BLINKER a.1 a.2)).grid p =
      gridLive (GameEngine.init.addPattern PATTERNS.BLINKER a.1 a.2).grid p ∧
    gridLive (GameEngine.init.addPattern PATTERNS.BLINKER a.1 a.2).grid p =
      blinkerConf a p := by
  constructor
  · rw [gridLive_stepN, funext (gridLive_blinker a), blinkerConf_shift,
      lifeStepN_shift]
    exact lifeStepN_blinker_origin _
  · exact gridLive_blinker a p

/-- C6: stamping the built-in GLIDER at any anchor on the fresh engine and
applying `nextGeneration` `4 * n` times yields the original live-cell set
translated by `(n, n)` — in particular after exactly 4 steps it is the
original set translated by the drift vector (+1, +1), and this repeats for
every further block of 4 steps. -/
theorem glider_translation (a : Coord) (n : Nat) (p : Coord) :
    gridLive (stepN (4 * n) (GameEngine.init.addPattern PATTERNS.GLIDER a.1 a.2)).grid p =
      gridLive (GameEngine.init.addPattern PATTERNS.GLIDER a.1 a.2).grid
        (p.1 - n, p.2 - n) := by
  rw [gridLive_stepN, funext (gridLive_glider a)]
  induction n generalizing p with
  | zero =>
      show lifeStepN 0 (gliderConf a) p = gliderConf a (p.1 - 0, p.2 - 0)
      show gliderConf a p = gliderConf a (p.1 - 0, p.2 - 0)
      congr 1
      simp only [Prod.ext_iff]
      omega
  | succ m ih =>
      rw [show 4 * (m + 1) = 4 + 4 * m from by omega, lifeStepN_add]
      have hih : lifeStepN (4 * m) (gliderConf a) =
          shiftConf ((m : Int), (m : Int)) (gliderConf a) := by
        funext q
        rw [ih q]
        rfl
      rw [hih, lifeStepN_shift, lifeStepN_four_glider]
      unfold shiftConf
      dsimp only
      congr 1
      simp only [Prod.ext_iff]
      push_cast
      omega

theorem mem_mapSet {g : Grid} {k : Coord} {c : Cell} {kc : Coord × Cell}
    (h : kc ∈ mapSet g k c) : kc ∈ g ∨ kc = (k, c) := by
  induction g with
  | nil =>
      simp only [mapSet, List.mem_singleton] at h
      exact Or.inr h
  | cons hd tl ih =>
      simp only [mapSet] at h
      by_cases hh : hd.1 = k
      · rw [if_pos hh] at h
        rcases List.mem_cons.mp h with rfl | h2
        · exact Or.inr rfl
        · exact Or.inl (List.mem_cons_of_mem _ h2)
      · rw [if_neg hh] at h
        rcases List.mem_cons.mp h with rfl | h2
        · exact Or.inl (List.mem_cons_self _ _)
        · rcases ih h2 with h3 | h3
          · exact Or.inl (List.mem_cons_of_mem _ h3)
          · exact Or.inr h3

theorem mem_mapDelete {g : Grid} {k : Coord} {kc : Coord × Cell}
    (h : kc ∈ mapDelete g k) : kc ∈ g := by
  induction g with
  | nil => simp [mapDelete] at h
  | cons hd tl ih =>
      simp only [mapDelete] at h
      by_cases hh : hd.1 = k
      · rw [if_pos hh] at h
        exact List.mem_cons_of_mem _ (ih h)
      · rw [if_neg hh] at h
        rcases List.mem_cons.mp h with rfl | h2
        · exact List.mem_cons_self _ _
        · exact List.mem_cons_of_mem _ (ih h2)

theorem ruleResult_alive {g : Grid} {p : Coord} {c : Cell}
    (h : ruleResult g p = some c) : c.alive = true := by
  simp only [ruleResult] at h
  cases hm : mapGet g p with
  | none =>
      rw [hm] at h
      dsimp only at h
      rcases ite_eq_iff.mp h with ⟨_, he⟩ | ⟨_, he⟩
      · cases he; rfl
      · cases he
  | some c2 =>
      rw [hm] at h
      dsimp only at h
      by_cases hca : c2.alive = true
      · rw [if_pos hca] at h
        rcases ite_eq_iff.mp h with ⟨_, he⟩ | ⟨_, he⟩
        · cases he; rfl
        · cases he
      · rw [if_neg hca] at h
        rcases ite_eq_iff.mp h with ⟨_, he⟩ | ⟨_, he⟩
        · cases he; rfl
        · cases he

theorem wfGrid_nextGeneration (e : GameEngine) : WFGrid e.nextGeneration.grid := by
  have haux : ∀ (l : List Coord) (acc : Grid), WFGrid acc →
      WFGrid (l.foldl (applyRules e.grid) acc) := by
    intro l
    induction l with
    | nil => exact fun acc h => h
    | cons hd tl ih =>
        intro acc h
        rw [List.foldl_cons]
        apply ih
        rw [applyRules_eq]
        cases hr : ruleResult e.grid hd with
        | none => exact h
        | some c =>
            intro kc hkc
            rcases mem_mapSet hkc with h2 | h2
            · exact h kc h2
            · rw [h2]
              exact ruleResult_alive hr
  exact haux _ [] (fun kc hkc => absurd hkc (List.not_mem_nil kc))

/-- Every entry the engine ever stores has `alive = true`: the data-model
invariant holds for the fresh engine and is preserved by every operation,
so it holds in every reachable state. -/
theorem wfGrid_preserved (e : GameEngine) (x y : Int) (b : Bool)
    (pat : List (Int × Int)) (h : WFGrid e.grid) :
    WFGrid GameEngine.init.grid ∧
    WFGrid (e.setCell x y b).grid ∧
    WFGrid (e.toggleCell x y).grid ∧
    WFGrid (e.addPattern pat x y).grid ∧
    WFGrid e.nextGeneration.grid ∧
    WFGrid e.clear.grid ∧
    WFGrid e.reset.grid := by
  have hset : ∀ (e1 : GameEngine) (x1 y1 : Int) (b1 : Bool), WFGrid e1.grid →
      WFGrid (e1.setCell x1 y1 b1).grid := by
    intro e1 x1 y1 b1 h1
    unfold GameEngine.setCell
    split_ifs
    · intro kc hkc
      rcases mem_mapSet hkc with h2 | h2
      · exact h1 kc h2
      · rw [h2]
    · exact fun kc hkc => h1 kc (mem_mapDelete hkc)
  refine ⟨?_, hset e x y b h, ?_, ?_, wfGrid_nextGeneration e, ?_, ?_⟩
  · intro kc hkc
    exact absurd hkc (List.not_mem_nil kc)
  · unfold GameEngine.toggleCell
    cases mapGet e.grid (x, y)
    · intro kc hkc
      rcases mem_mapSet hkc with h2 | h2
      · exact h kc h2
      · rw [h2]
    · exact fun kc hkc => h kc (mem_mapDelete hkc)
  · have haux : ∀ (l : List (Int × Int)) (e1 : GameEngine), WFGrid e1.grid →
        WFGrid (e1.addPattern l x y).grid := by
      intro l
      induction l with
      | nil => exact fun e1 h1 => h1
      | cons d t ih =>
          intro e1 h1
          exact ih _ (hset e1 (d.1 + x) (d.2 + y) true h1)
    exact haux pat e h
  · exact fun kc hkc => absurd hkc (List.not_mem_nil kc)
  · intro kc hkc
    have hsg : e.reset.grid = ([] : Grid) := by
      unfold GameEngine.reset GameEngine.stop
      cases h : e.intervalId <;> simp [h]
    rw [hsg] at hkc
    exact absurd hkc (List.not_mem_nil kc)

theorem toggleCell_eq_insert {e : GameEngine} {x y : Int}
    (h : mapGet e.grid (x, y) = none) :
    e.toggleCell x y = { e with grid := mapSet e.grid (x, y) ⟨true, 0⟩ } := by
  unfold GameEngine.toggleCell
  rw [h]

theorem toggleCell_eq_delete {e : GameEngine} {x y : Int} {c : Cell}
    (h : mapGet e.grid (x, y) = some c) :
    e.toggleCell x y = { e with grid := mapDelete e.grid (x, y) } := by
  unfold GameEngine.toggleCell
  rw [h]

/-- C7: two successive `toggleCell(x,y)` calls restore the presence status of
the cell at (x,y) (and, on grids satisfying the data-model invariant that
stored cells are alive, its alive/dead status), leave the entry at every
other coordinate exactly as it was, and do not change the generation
counter. -/
theorem toggleCell_involution (e : GameEngine) (x y : Int) :
    ((mapGet ((e.toggleCell x y).toggleCell x y).grid (x, y)).isSome =
      (mapGet e.grid (x, y)).isSome) ∧
    (∀ q, q ≠ (x, y) →
      mapGet ((e.toggleCell x y).toggleCell x y).grid q = mapGet e.grid q) ∧
    ((e.toggleCell x y).toggleCell x y).generation = e.generation ∧
    (WFGrid e.grid →
      gridLive ((e.toggleCell x y).toggleCell x y).grid (x, y) =
        gridLive e.grid (x, y)) := by
  cases hm : mapGet e.grid (x, y) with
  | none =>
      have h1 : e.toggleCell x y =
          { e with grid := mapSet e.grid (x, y) ⟨true, 0⟩ } :=
        toggleCell_eq_insert hm
      have hg1 : mapGet (e.toggleCell x y).grid (x, y) = some ⟨true, 0⟩ := by
        rw [h1]
        show mapGet (mapSet e.grid (x, y) ⟨true, 0⟩) (x, y) = _
        rw [mapGet_mapSet, if_pos rfl]
      have h2 : (e.toggleCell x y).toggleCell x y =
          { e.toggleCell x y with
            grid := mapDelete (e.toggleCell x y).grid (x, y) } :=
        toggleCell_eq_delete hg1
      refine ⟨?_, ?_, ?_, ?_⟩
      · rw [h2]
        show (mapGet (mapDelete (e.toggleCell x y).grid (x, y)) (x, y)).isSome = _
        rw [mapGet_mapDelete, if_pos rfl]
      · intro q hq
        have hq2 : ¬(x, y) = q := fun he => hq he.symm
        rw [h2]
        show mapGet (mapDelete (e.toggleCell x y).grid (x, y)) q = _
        rw [mapGet_mapDelete, if_neg hq2, h1]
        show mapGet (mapSet e.grid (x, y) ⟨true, 0⟩) q = _
        rw [mapGet_mapSet, if_neg hq2]
      · rw [h2, h1]
      · intro _
        rw [h2]
        show gridLive (mapDelete (e.toggleCell x y).grid (x, y)) (x, y) = _
        unfold gridLive
        rw [mapGet_mapDelete, if_pos rfl, hm]
  | some c =>
      have h1 : e.toggleCell x y =
          { e with grid := mapDelete e.grid (x, y) } :=
        toggleCell_eq_delete hm
      have hg1 : mapGet (e.toggleCell x y).grid (x, y) = none := by
        rw [h1]
        show mapGet (mapDelete e.grid (x, y)) (x, y) = _
        rw [mapGet_mapDelete, if_pos rfl]
      have h2 : (e.toggleCell x y).toggleCell x y =
          { e.toggleCell x y with
            grid := mapSet (e.toggleCell x y).grid (x, y) ⟨true, 0⟩ } :=
        toggleCell_eq_insert hg1
      refine ⟨?_, ?_, ?_, ?_⟩
      · rw [h2]
        show (mapGet (mapSet (e.toggleCell x y).grid (x, y) ⟨true, 0⟩) (x, y)).isSome = _
        rw [mapGet_mapSet, if_pos rfl]
        rfl
      · intro q hq
        have hq2 : ¬(x, y) = q := fun he => hq he.symm
        rw [h2]
        show mapGet (mapSet (e.toggleCell x y).grid (x, y) ⟨true, 0⟩) q = _
        rw [mapGet_mapSet, if_neg hq2, h1]
        show mapGet (mapDelete e.grid (x, y)) q = _
        rw [mapGet_mapDelete, if_neg hq2]
      · rw [h2, h1]
      · intro hW
        have hc : c.alive = true := hW ((x, y), c) (mapGet_mem hm)
        rw [h2]
        show gridLive (mapSet (e.toggleCell x y).grid (x, y) ⟨true, 0⟩) (x, y) = _
        unfold gridLive
        rw [mapGet_mapSet, if_pos rfl, hm]
        show (true : Bool) = c.alive
        exact hc.symm

/-- Witness for C7: in the 2x2 block, toggling (0,0) twice restores the
alive status at (0,0) and leaves the entry at (5,7) unchanged. -/
theorem toggleCell_involution_witness :
    gridLive ((blockEngine.toggleCell 0 0).toggleCell 0 0).grid (0, 0) =
      gridLive blockEngine.grid (0, 0) ∧
    mapGet ((blockEngine.toggleCell 0 0).toggleCell 0 0).grid (5, 7) =
      mapGet blockEngine.grid (5, 7) :=
  ⟨(toggleCell_involution blockEngine 0 0).2.2.2 (by unfold WFGrid; decide),
    (toggleCell_involution blockEngine 0 0).2.1 (5, 7) (by decide)⟩

/-- C8: `setSpeed(period)` always records the new period; when the engine is
running it equals `stop()` immediately followed by `start()` on the engine
with the new period recorded — the engine stays running and the generation
counter is untouched — and when it is not running nothing but the recorded
period changes. -/
theorem setSpeed_spec (e : GameEngine) (s : Int) :
    (e.setSpeed s).speed = s ∧
    (e.isRunning = true →
      e.setSpeed s = GameEngine.start (GameEngine.stop { e with speed := s }) ∧
      (e.setSpeed s).isRunning = true ∧
      (e.setSpeed s).generation = e.generation) ∧
    (e.isRunning = false → e.setSpeed s = { e with speed := s }) := by
  have hcond : ({ e with speed := s } : GameEngine).isRunning = e.isRunning := rfl
  by_cases hr : e.isRunning = true
  · have hss : e.setSpeed s =
        GameEngine.start (GameEngine.stop { e with speed := s }) := by
      simp only [GameEngine.setSpeed]
      rw [if_pos (by rw [hcond]; exact hr)]
    refine ⟨?_, fun _ => ⟨hss, ?_, ?_⟩, fun hf => absurd hr (by simp [hf])⟩
    · rw [hss, start_speed, stop_speed]
    · rw [hss, start_isRunning]
    · rw [hss, start_generation, stop_generation]
  · have hrf : e.isRunning = false := by
      revert hr
      cases e.isRunning <;> simp
    have hss : e.setSpeed s = { e with speed := s } := by
      simp only [GameEngine.setSpeed]
      rw [if_neg (by rw [hcond, hrf]; simp)]
    exact ⟨by rw [hss], fun ht => absurd ht (by rw [hrf]; simp), fun _ => hss⟩

/-- Witness for C8: on the freshly started engine `setSpeed 250` equals
stop-then-start with the new period; on the fresh stopped engine it only
records the period. -/
theorem setSpeed_spec_witness :
    GameEngine.init.start.setSpeed 250 =
      GameEngine.start (GameEngine.stop { GameEngine.init.start with speed := 250 }) ∧
    GameEngine.init.setSpeed 250 = { GameEngine.init with speed := 250 } :=
  ⟨((setSpeed_spec GameEngine.init.start 250).2.1 (by decide)).1,
    (setSpeed_spec GameEngine.init 250).2.2 (by decide)⟩

/-- C9: `start()` on a running engine leaves the entire engine state
(including the scheduled-timer registry) unchanged, `stop()` on a stopped
engine (which, by the preserved scheduling invariant, holds no interval
handle) leaves the entire state unchanged, and `isSimulationRunning` reports
true after any `start()` and false after any `stop()`. -/
theorem start_stop_spec (e : GameEngine) :
    (e.isRunning = true → e.start = e) ∧
    (TimerInv e → e.isRunning = false → e.stop = e) ∧
    e.start.isSimulationRunning = true ∧
    e.stop.isSimulationRunning = false := by
  refine ⟨?_, ?_, start_isRunning e, stop_isRunning e⟩
  · intro h
    unfold GameEngine.start
    rw [if_pos h]
  · intro hinv hnr
    have hid : e.intervalId = none := hinv hnr
    unfold GameEngine.stop
    rw [hid]
    show { e with isRunning := false, intervalId := none } = e
    rw [← hnr, ← hid]

/-- Witness for C9: starting the already-started fresh engine changes
nothing, and stopping the fresh (stopped) engine changes nothing. -/
theorem start_stop_spec_witness :
    GameEngine.init.start.start = GameEngine.init.start ∧
    GameEngine.init.stop = GameEngine.init :=
  ⟨(start_stop_spec GameEngine.init.start).1 (by decide),
    (start_stop_spec GameEngine.init).2.1 (fun _ => rfl) (by decide)⟩

/-- C10: the string key `${x},${y}` decoded by splitting on the comma and
applying `Number` to each part yields back exactly (x, y) for every pair of
integers (negative included), and the encoding is injective, so distinct
coordinates never alias the same grid entry. -/
theorem key_encoding_injective :
    (∀ x y : Int, KeyCodec.decodeKey (KeyCodec.encodeKey x y) = (x, y)) ∧
    (∀ x1 y1 x2 y2 : Int,
      KeyCodec.encodeKey x1 y1 = KeyCodec.encodeKey x2 y2 →
        x1 = x2 ∧ y1 = y2) := by
  constructor
  · exact KeyCodec.decodeKey_encodeKey
  · intro x1 y1 x2 y2 h
    have h2 := congrArg KeyCodec.decodeKey h
    rw [KeyCodec.decodeKey_encodeKey, KeyCodec.decodeKey_encodeKey] at h2
    simpa [Prod.ext_iff] using h2

/-- Witness for C10: the key of (-12, 34) decodes back to (-12, 34), and
the injectivity conjunct applied at equal keys of (7, -8). -/
theorem key_encoding_injective_witness :
    KeyCodec.decodeKey (KeyCodec.encodeKey (-12) 34) = (-12, 34) ∧
    ((7 : Int) = 7 ∧ (-8 : Int) = -8) :=
  ⟨key_encoding_injective.1 (-12) 34,
    key_encoding_injective.2 7 (-8) 7 (-8) rfl⟩

end GameOfLife
